import Mathlib

namespace NormalizeAudio

/-!
Verification of `tools/normalize_audio.py` (tt-sim repository).

The development shallowly embeds the decision logic, the filesystem
manipulation of `_apply_filter`, the stderr-scraping of `measure_loudness`,
and the per-file orchestration loop of `main`, and proves the spec's
claims about them.  dB quantities are modelled as rationals (exact
arithmetic at the level the spec speaks); the external ffmpeg engine is
modelled as an oracle supplying its exit code and outputs.
-/

/-- Outcome of Python `float(x)` on a JSON field value: a finite rational,
one of the non-finite floats, or (`Option.none` at the use sites) a missing
key / unconvertible value. -/
inductive PyFloat
  | finite (q : ℚ)
  | posInf
  | negInf
  | nan
deriving DecidableEq

def PyFloat.isFinite : PyFloat → Bool
  | .finite _ => true
  | _ => false

/-- The loudnorm measurement dict as consumed by the script: the
`input_i` and `input_tp` fields after the `float(...)` conversion attempt
(`none` = key absent or the value failed to convert, which the script's
`except (ValueError, KeyError, TypeError)` handlers treat uniformly). -/
structure Measurements where
  input_i : Option PyFloat
  input_tp : Option PyFloat
deriving DecidableEq

/-- Embeds `is_lufs_valid` (normalize_audio.py:120): `float(m["input_i"])`
is finite, with every conversion failure caught and mapped to `False`. -/
def is_lufs_valid (m : Measurements) : Bool :=
  match m.input_i with
  | some v => v.isFinite
  | none => false

/-- Embeds `get_peak_db` (normalize_audio.py:129): the finite true-peak
value, or `none` on a non-finite value or conversion failure. -/
def get_peak_db (m : Measurements) : Option ℚ :=
  match m.input_tp with
  | some (.finite q) => some q
  | _ => none

/-- The value `float(measurements["input_i"])` read in the LUFS branch of
`main` (line 336); only meaningful when `is_lufs_valid m = true`. -/
def lufs_value (m : Measurements) : ℚ :=
  match m.input_i with
  | some (.finite q) => q
  | _ => 0

def LUFS_TOLERANCE : ℚ := 3/2

def PEAK_TOLERANCE : ℚ := 3/2

/-- The measurement regime the script selects for a file, following the
branch structure of `main` (lines 334/364/394). -/
inductive Regime
  | lufs
  | peak
  | unmeasurable
deriving DecidableEq

/-- Embeds the regime selection of `main`: `is_lufs_valid` decides LUFS,
else a usable true peak decides peak, else the file is unmeasurable. -/
def classify (m : Measurements) : Regime :=
  if is_lufs_valid m then .lufs
  else
    match get_peak_db m with
    | some _ => .peak
    | none => .unmeasurable

/-- A normalization plan: skip, apply a gain under a regime, or no plan
(unmeasurable file). -/
inductive Plan
  | skip
  | applyGain (r : Regime) (g : ℚ)
  | noPlan
deriving DecidableEq

/-- Embeds the planning logic of `main` (lines 334-397): under the LUFS
regime skip iff `abs (current_lufs - target) < LUFS_TOLERANCE`, else apply
gain `target - current_lufs` (lines 339-344); under the peak regime the
same with the peak target (lines 368-373); unmeasurable files get no
plan (line 394). -/
def plan_for (m : Measurements) (target peakTarget : ℚ) : Plan :=
  if is_lufs_valid m then
    if |lufs_value m - target| < LUFS_TOLERANCE then .skip
    else .applyGain .lufs (target - lufs_value m)
  else
    match get_peak_db m with
    | some cp =>
      if |cp - peakTarget| < PEAK_TOLERANCE then .skip
      else .applyGain .peak (peakTarget - cp)
    | none => .noPlan

/-! ### Orchestrator (per-file loop of `main`, lines 315-401) -/

/-- Per-file outcome, matching which of the three counters `main`
increments for the file. -/
inductive Outcome
  | success
  | skipped
  | failed
deriving DecidableEq

/-- What one loop iteration did: its outcome, and whether the applier
(`normalize_lufs` / `normalize_peak`) was invoked for the file. -/
structure StepResult where
  outcome : Outcome
  applied : Bool
deriving DecidableEq

/-- Oracle describing the engine's behaviour for one file: the parsed
measurement returned by `measure_loudness` (or `none` on failure), whether
the apply call would succeed, and the post-apply verification measurement.
The verification result only changes the printed report, never the
outcome. -/
structure FileEnv where
  meas : Option Measurements
  applyOk : Bool
  verif : Option Measurements
deriving DecidableEq

/-- Command-line arguments consumed by the loop. -/
structure Args where
  target : ℚ
  peak : ℚ
  dryRun : Bool
  backup : Bool
deriving DecidableEq

/-- Embeds one iteration of the `for filepath in audio_files` loop of
`main` (lines 319-397): measurement failure is a failed file; otherwise
the plan decides between skip, dry-run report, and invoking the applier,
whose boolean result decides success vs. failure. -/
def step (a : Args) (env : FileEnv) : StepResult :=
  match env.meas with
  | none => ⟨.failed, false⟩
  | some m =>
    match plan_for m a.target a.peak with
    | .skip => ⟨.skipped, false⟩
    | .noPlan => ⟨.failed, false⟩
    | .applyGain _ _ =>
      if a.dryRun then ⟨.success, false⟩
      else if env.applyOk then ⟨.success, true⟩
      else ⟨.failed, true⟩

/-- The three run counters of `main` (lines 315-317). -/
structure Counts where
  success : Nat
  skip : Nat
  fail : Nat
deriving DecidableEq

/-- Increment the counter selected by an outcome. -/
def bump (c : Counts) : Outcome → Counts
  | .success => { c with success := c.success + 1 }
  | .skipped => { c with skip := c.skip + 1 }
  | .failed => { c with fail := c.fail + 1 }

/-- The full per-file loop: fold every file's step into the counters. -/
def run_loop (a : Args) (envs : List FileEnv) : Counts :=
  envs.foldl (fun c env => bump c (step a env).outcome) ⟨0, 0, 0⟩

/-- Input resolution of `main` (lines 281-301): either explicit paths
resolve to a file list, or the default `assets/audio` directory is used,
aborting when it does not exist. -/
inductive Inputs
  | explicitPaths (envs : List FileEnv)
  | defaultDir (dirExists : Bool) (envs : List FileEnv)
deriving DecidableEq

def resolve : Inputs → Option (List FileEnv)
  | .explicitPaths es => some es
  | .defaultDir true es => some es
  | .defaultDir false _ => none

/-- Result of a whole run: the two pre-loop aborts (`sys.exit(1)`), or
completion with final counters. -/
inductive RunResult
  | engineUnavailable
  | noAudioDir
  | completed (c : Counts)
deriving DecidableEq

/-- Embeds `main`: abort if `check_ffmpeg()` fails (line 271), abort if
inputs cannot be resolved (line 293), otherwise run the loop over every
resolved file. -/
def main_run (ffmpegOk : Bool) (inp : Inputs) (a : Args) : RunResult :=
  if ffmpegOk then
    match resolve inp with
    | none => .noAudioDir
    | some envs => .completed (run_loop a envs)
  else .engineUnavailable

/-! ### Filesystem model for `_apply_filter` (normalize_audio.py:189-220) -/

/-- A filesystem path, split into its directory and file name so that
"same directory" facts can be stated. -/
structure FsPath where
  dir : String
  name : String
deriving DecidableEq

/-- Contents plus metadata of one file; `shutil.copy2` preserves both,
so "byte-identical with metadata preserved" is equality of `FileData`. -/
structure FileData where
  bytes : List Nat
  meta : Nat
deriving DecidableEq

/-- A filesystem: a partial map from paths to file data. -/
def FS := FsPath → Option FileData

def FS.write (fs : FS) (p : FsPath) (d : FileData) : FS :=
  fun q => if q = p then some d else fs q

def FS.erase (fs : FS) (p : FsPath) : FS :=
  fun q => if q = p then none else fs q

/-- The empty file `tempfile.mkstemp` creates (line 193). -/
def emptyData : FileData := ⟨[], 0⟩

/-- Behaviour of the ffmpeg filter invocation (line 204) as an oracle:
its exit code and whatever it wrote to the output (temp) path. The
engine reads `filepath` and writes only the temp path. -/
structure EngineResult where
  rc : Int
  out : FileData
deriving DecidableEq

/-- Trace events of one `_apply_filter` call, in execution order. -/
inductive Ev
  | mkstemp (tmp : FsPath)
  | engineRun (rc : Int)
  | unlinkTmp (tmp : FsPath)
  | copyBak (src dst : FsPath)
  | moveTmp (src dst : FsPath)
deriving DecidableEq

/-- Injection points for an unexpected error (`except Exception` at line
217): the subprocess call, the failure-path `os.unlink`, `shutil.copy2`,
or `shutil.move` raises instead of performing its effect. -/
inductive Fault
  | atRun
  | atUnlink
  | atCopy
  | atMove
deriving DecidableEq

/-- The `except Exception` handler (lines 217-220): remove the temp file
if it still exists, then re-raise. -/
def cleanupTmp (fs : FS) (tmp : FsPath) : FS :=
  if (fs tmp).isSome then fs.erase tmp else fs

/-- The `.bak` sibling path (line 211: `filepath + ".bak"`). -/
def bakPath (p : FsPath) : FsPath := ⟨p.dir, p.name ++ ".bak"⟩

/-- Result of `_apply_filter`: normal return with the boolean result,
the final filesystem and the event trace, or a propagated exception with
the filesystem as left by the `except` handler. -/
inductive ApplyResult
  | ok (success : Bool) (fs : FS) (evs : List Ev)
  | err (fs : FS)

/-- The `shutil.move(tmp_path, filepath)` step (line 214): move raises if
the source is missing, else the file data lands at `filepath` and the
temp path is gone. -/
def moveStep (fault : Option Fault) (tmp filepath : FsPath) (fs : FS)
    (evs : List Ev) : ApplyResult :=
  if fault = some .atMove then .err (cleanupTmp fs tmp)
  else
    match fs tmp with
    | none => .err (cleanupTmp fs tmp)
    | some d => .ok true ((fs.erase tmp).write filepath d)
        (evs ++ [.moveTmp tmp filepath])

/-- Embeds `_apply_filter` (lines 189-220).  `tempDir` is the system
default temporary directory used by `tempfile.mkstemp` (no `dir=`
argument at line 193), `tmpName` the fresh name mkstemp chose.  Sequence:
create the empty temp file; run the engine, which writes its output to
the temp path; on non-zero exit unlink the temp file and return `false`;
otherwise optionally `shutil.copy2` the original to its `.bak` sibling
(raising if the original is missing), then `shutil.move` the temp file
over the original and return `true`.  An injected fault makes the
corresponding operation raise with no effect, after which the `except`
handler removes a still-existing temp file and propagates. -/
def apply_filter (tempDir : String) (filepath : FsPath) (tmpName : String)
    (eng : EngineResult) (backup : Bool) (fault : Option Fault)
    (fs : FS) : ApplyResult :=
  let tmp : FsPath := ⟨tempDir, tmpName⟩
  let fs1 := fs.write tmp emptyData
  if fault = some .atRun then .err (cleanupTmp fs1 tmp)
  else
    let fs2 := fs1.write tmp eng.out
    if eng.rc ≠ 0 then
      if fault = some .atUnlink then .err (cleanupTmp fs2 tmp)
      else .ok false (fs2.erase tmp)
        [.mkstemp tmp, .engineRun eng.rc, .unlinkTmp tmp]
    else
      if backup then
        if fault = some .atCopy then .err (cleanupTmp fs2 tmp)
        else
          match fs2 filepath with
          | none => .err (cleanupTmp fs2 tmp)
          | some orig =>
            moveStep fault tmp filepath (fs2.write (bakPath filepath) orig)
              [.mkstemp tmp, .engineRun eng.rc,
               .copyBak filepath (bakPath filepath)]
      else moveStep fault tmp filepath fs2 [.mkstemp tmp, .engineRun eng.rc]

/-- Projection of the event trace of an `_apply_filter` call. -/
def applyTrace : ApplyResult → List Ev
  | .ok _ _ evs => evs
  | .err _ => []

/-! ### Filesystem-level orchestration (for the dry-run frame property) -/

/-- Per-file oracle for the filesystem-threaded loop: the file's path,
its measurement, the fresh temp name `mkstemp` would choose, and the
engine's behaviour on the apply call. -/
structure FileEnvF where
  path : FsPath
  meas : Option Measurements
  tmpName : String
  eng : EngineResult

/-- Result of the filesystem-threaded loop: final counters, number of
applier invocations, and final filesystem — or a crash with the
filesystem left by `_apply_filter`'s exception handler. -/
inductive FsRun
  | done (c : Counts) (applies : Nat) (fs : FS)
  | crashed (fs : FS)

/-- One iteration of the loop with the filesystem threaded through:
identical branching to `step`, except that the apply branch really calls
`apply_filter` (with no injected fault), whose result decides the
outcome and updates the filesystem.  Measuring (`ffmpeg -f null -`)
writes nothing. -/
def step_fs (a : Args) (tempDir : String) (fs : FS) (env : FileEnvF) :
    (Outcome × Nat × FS) ⊕ FS :=
  match env.meas with
  | none => .inl (.failed, 0, fs)
  | some m =>
    match plan_for m a.target a.peak with
    | .skip => .inl (.skipped, 0, fs)
    | .noPlan => .inl (.failed, 0, fs)
    | .applyGain _ _ =>
      if a.dryRun then .inl (.success, 0, fs)
      else
        match apply_filter tempDir env.path env.tmpName env.eng a.backup
            none fs with
        | .ok true fs' _ => .inl (.success, 1, fs')
        | .ok false fs' _ => .inl (.failed, 1, fs')
        | .err fs' => .inr fs'

/-- The loop of `main` with the filesystem threaded through; an
uncaught exception from the apply sequence crashes the run. -/
def run_fs (a : Args) (tempDir : String) :
    List FileEnvF → Counts → Nat → FS → FsRun
  | [], c, n, fs => .done c n fs
  | env :: rest, c, n, fs =>
    match step_fs a tempDir fs env with
    | .inl (o, k, fs') => run_fs a tempDir rest (bump c o) (n + k) fs'
    | .inr fs' => .crashed fs'

/-- The pure-model view of a filesystem-level file oracle (the applier
outcome is irrelevant in dry-run). -/
def toEnv (e : FileEnvF) : FileEnv := ⟨e.meas, true, none⟩

/-! ### Measurer (`measure_loudness`, normalize_audio.py:90-117) -/

/-- Python `str.rfind` for a single character: highest index where the
character occurs, `none` standing for Python's -1. -/
def rfindChar : List Char → Char → Option Nat
  | [], _ => none
  | a :: s, c =>
    match rfindChar s c with
    | some i => some (i + 1)
    | none => if a = c then some 0 else none

/-- Python slice `s[a:b]` for nonnegative bounds. -/
def pySlice (s : List Char) (a b : Nat) : List Char := (s.take b).drop a

/-- Declarative characterisation of `rfind`: index `i` holds the
character and no later index does. -/
def IsLastIdx (s : List Char) (c : Char) (i : Nat) : Prop :=
  s.get? i = some c ∧ ∀ j, i < j → s.get? j ≠ some c

/-- A parsed JSON value.  Number and string payloads are kept as the raw
character data; this is all the claims need. -/
inductive JVal
  | null
  | jbool (b : Bool)
  | jnum (lex : List Char)
  | jstr (s : List Char)
  | jarr (xs : List JVal)
  | jobj (kvs : List (List Char × JVal))

/-- JSON whitespace. -/
def isWsChar (c : Char) : Bool := c = ' ' || c = '\t' || c = '\n' || c = '\r'

def skipWs : List Char → List Char
  | [] => []
  | c :: s => if isWsChar c then skipWs s else c :: s

def isDigitChar (c : Char) : Bool := '0' ≤ c && c ≤ '9'

/-- Longest digit prefix and the remainder. -/
def spanDigits : List Char → (List Char × List Char)
  | [] => ([], [])
  | c :: s =>
    if isDigitChar c then
      let r := spanDigits s
      (c :: r.1, r.2)
    else ([], c :: s)

def hexDigitVal (c : Char) : Option Nat :=
  if '0' ≤ c ∧ c ≤ '9' then some (c.toNat - '0'.toNat)
  else if 'a' ≤ c ∧ c ≤ 'f' then some (c.toNat - 'a'.toNat + 10)
  else if 'A' ≤ c ∧ c ≤ 'F' then some (c.toNat - 'A'.toNat + 10)
  else none

/-- Body of a JSON string after the opening quote, with the standard
escapes; raw control characters are rejected as `json.loads` does in
its default strict mode. -/
def parseStringBody : List Char → Option (List Char × List Char)
  | [] => none
  | '"' :: s => some ([], s)
  | '\\' :: e :: s =>
    match e with
    | '"' => (parseStringBody s).map (fun r => ('"' :: r.1, r.2))
    | '\\' => (parseStringBody s).map (fun r => ('\\' :: r.1, r.2))
    | '/' => (parseStringBody s).map (fun r => ('/' :: r.1, r.2))
    | 'b' => (parseStringBody s).map (fun r => (Char.ofNat 8 :: r.1, r.2))
    | 'f' => (parseStringBody s).map (fun r => (Char.ofNat 12 :: r.1, r.2))
    | 'n' => (parseStringBody s).map (fun r => ('\n' :: r.1, r.2))
    | 'r' => (parseStringBody s).map (fun r => ('\r' :: r.1, r.2))
    | 't' => (parseStringBody s).map (fun r => ('\t' :: r.1, r.2))
    | 'u' =>
      match s with
      | h1 :: h2 :: h3 :: h4 :: s2 =>
        match hexDigitVal h1, hexDigitVal h2, hexDigitVal h3,
            hexDigitVal h4 with
        | some a, some b, some c, some d =>
          (parseStringBody s2).map
            (fun r => (Char.ofNat (((a * 16 + b) * 16 + c) * 16 + d)
              :: r.1, r.2))
        | _, _, _, _ => none
      | _ => none
    | _ => none
  | c :: s =>
    if c.toNat < 32 then none
    else (parseStringBody s).map (fun r => (c :: r.1, r.2))

/-- Integer part of a JSON number: `0`, or a nonzero digit followed by
digits (leading zeros rejected as in JSON). -/
def parseIntPart : List Char → Option (List Char × List Char)
  | '0' :: s => some (['0'], s)
  | c :: s =>
    if isDigitChar c then
      let r := spanDigits s
      some (c :: r.1, r.2)
    else none
  | [] => none

/-- Optional fraction part; consumed only when a digit follows the dot. -/
def parseFracPart : List Char → (List Char × List Char)
  | '.' :: s =>
    match spanDigits s with
    | (d :: ds, r) => ('.' :: d :: ds, r)
    | ([], _) => ([], '.' :: s)
  | s => ([], s)

/-- Optional exponent part; consumed only when digits follow. -/
def parseExpPart : List Char → (List Char × List Char)
  | c :: s =>
    if c = 'e' || c = 'E' then
      match s with
      | c2 :: s2 =>
        if c2 = '+' || c2 = '-' then
          match spanDigits s2 with
          | (d :: ds, r) => (c :: c2 :: d :: ds, r)
          | ([], _) => ([], c :: s)
        else
          match spanDigits s with
          | (d :: ds, r) => (c :: d :: ds, r)
          | ([], _) => ([], c :: s)
      | [] => ([], [c])
    else ([], c :: s)
  | [] => ([], [])

/-- A JSON number lexeme, `-?(0|[1-9][0-9]*)(.[0-9]+)?([eE][+-]?[0-9]+)?`. -/
def parseNumber (s : List Char) : Option (List Char × List Char) :=
  match s with
  | '-' :: s1 =>
    match parseIntPart s1 with
    | none => none
    | some (ip, s2) =>
      let fr := parseFracPart s2
      let ex := parseExpPart fr.2
      some ('-' :: (ip ++ fr.1 ++ ex.1), ex.2)
  | _ =>
    match parseIntPart s with
    | none => none
    | some (ip, s2) =>
      let fr := parseFracPart s2
      let ex := parseExpPart fr.2
      some (ip ++ fr.1 ++ ex.1, ex.2)

mutual

/-- Fuel-indexed JSON value parser, modelling `json.loads` (which in its
default configuration also accepts the NaN and Infinity constants). -/
def parseValue : Nat → List Char → Option (JVal × List Char)
  | 0, _ => none
  | f + 1, s0 =>
    match skipWs s0 with
    | 't' :: 'r' :: 'u' :: 'e' :: s => some (.jbool true, s)
    | 'f' :: 'a' :: 'l' :: 's' :: 'e' :: s => some (.jbool false, s)
    | 'n' :: 'u' :: 'l' :: 'l' :: s => some (.null, s)
    | 'N' :: 'a' :: 'N' :: s => some (.jnum ['N', 'a', 'N'], s)
    | 'I' :: 'n' :: 'f' :: 'i' :: 'n' :: 'i' :: 't' :: 'y' :: s =>
      some (.jnum ("Infinity".toList), s)
    | '-' :: 'I' :: 'n' :: 'f' :: 'i' :: 'n' :: 'i' :: 't' :: 'y' :: s =>
      some (.jnum ("-Infinity".toList), s)
    | '"' :: s => (parseStringBody s).map (fun r => (.jstr r.1, r.2))
    | '[' :: s =>
      match skipWs s with
      | ']' :: rest => some (.jarr [], rest)
      | _ => (parseElems f s).map (fun r => (.jarr r.1, r.2))
    | '\x7b' :: s =>
      match skipWs s with
      | '\x7d' :: rest => some (.jobj [], rest)
      | _ => (parseMembers f s).map (fun r => (.jobj r.1, r.2))
    | s => (parseNumber s).map (fun r => (.jnum r.1, r.2))

/-- Comma-separated array elements up to the closing bracket. -/
def parseElems : Nat → List Char → Option (List JVal × List Char)
  | 0, _ => none
  | f + 1, s =>
    match parseValue f s with
    | none => none
    | some (v, rest) =>
      match skipWs rest with
      | ',' :: rest2 => (parseElems f rest2).map (fun r => (v :: r.1, r.2))
      | ']' :: rest2 => some ([v], rest2)
      | _ => none

/-- Comma-separated object members up to the closing brace. -/
def parseMembers : Nat →
    List Char → Option (List (List Char × JVal) × List Char)
  | 0, _ => none
  | f + 1, s =>
    match skipWs s with
    | '"' :: s1 =>
      match parseStringBody s1 with
      | none => none
      | some (key, rest) =>
        match skipWs rest with
        | ':' :: rest2 =>
          match parseValue f rest2 with
          | none => none
          | some (v, rest3) =>
            match skipWs rest3 with
            | ',' :: rest4 =>
              (parseMembers f rest4).map
                (fun r => ((key, v) :: r.1, r.2))
            | '\x7d' :: rest4 => some ([(key, v)], rest4)
            | _ => none
        | _ => none
    | _ => none

end

/-- Model of `json.loads`: parse one value and require only whitespace
to follow.  The fuel is ample: at least one character is consumed per
two fuel levels. -/
def json_loads (s : List Char) : Option JVal :=
  match parseValue (2 * s.length + 2) s with
  | none => none
  | some (v, rest) => if skipWs rest = [] then some v else none

/-- Embeds lines 109-112: the span from `stderr.rfind` of the opening
brace to `stderr.rfind` of the closing brace plus one, guarded exactly as
the code guards (`json_start == -1 or json_end == 0`). -/
def extract_block (stderr : List Char) : Option (List Char) :=
  match rfindChar stderr '\x7b', rfindChar stderr '\x7d' with
  | some js, some je => some (pySlice stderr js (je + 1))
  | _, _ => none

/-- Embeds `measure_loudness` (lines 90-117) given the engine's exit
code and diagnostic text: `none` on non-zero exit, on a missing brace,
or on a JSON parse failure of the extracted span. -/
def measure_loudness (rc : Int) (stderr : List Char) : Option JVal :=
  if rc ≠ 0 then none
  else
    match extract_block stderr with
    | none => none
    | some block => json_loads block

/-- Modelled from the spec's words, as a refinement target only (the
source is `extract_block` above): the last closing brace paired with the
opening brace that last precedes it. -/
def spec_extract_block (stderr : List Char) : Option (List Char) :=
  match rfindChar stderr '\x7d' with
  | none => none
  | some je =>
    match rfindChar (stderr.take je) '\x7b' with
    | none => none
    | some js => some (pySlice stderr js (je + 1))

/-- Modelled from the spec's words, as a refinement target only: the
Measurer as claim C5 describes it, using `spec_extract_block`. -/
def measure_loudness_as_specified (rc : Int) (stderr : List Char) :
    Option JVal :=
  if rc ≠ 0 then none
  else
    match spec_extract_block stderr with
    | none => none
    | some block => json_loads block

/-!
### Theorems

The claims about the embedded program, with their supporting lemmas,
witnesses and counterexamples.
-/

/-- C1: under the active regime, the planner decides Skip iff the gap
`|current - target|` is strictly below 1.5 dB (so a gap of exactly 1.5
yields Apply), and every Apply decision carries the exact gain
`target - current`. -/
theorem planner_skip_law (m : Measurements) (t p : ℚ) :
    (classify m = .lufs →
      ((plan_for m t p = .skip ↔ |lufs_value m - t| < 3/2)
        ∧ (∀ r g, plan_for m t p = .applyGain r g → g = t - lufs_value m)
        ∧ (|lufs_value m - t| = 3/2 →
            plan_for m t p = .applyGain .lufs (t - lufs_value m))))
    ∧ (∀ cp, classify m = .peak → get_peak_db m = some cp →
      ((plan_for m t p = .skip ↔ |cp - p| < 3/2)
        ∧ (∀ r g, plan_for m t p = .applyGain r g → g = p - cp)
        ∧ (|cp - p| = 3/2 → plan_for m t p = .applyGain .peak (p - cp)))) := by
  constructor
  · intro hl
    have hv : is_lufs_valid m = true := by
      by_contra hv
      simp only [classify, hv, Bool.false_eq_true, if_false] at hl
      cases hpk : get_peak_db m <;> simp [hpk] at hl
    refine ⟨?_, ?_, ?_⟩
    · unfold plan_for LUFS_TOLERANCE
      rw [hv]
      simp only [if_true]
      by_cases hlt : |lufs_value m - t| < 3/2 <;> simp [hlt]
    · intro r g hpg
      unfold plan_for LUFS_TOLERANCE at hpg
      rw [hv] at hpg
      simp only [if_true] at hpg
      by_cases hlt : |lufs_value m - t| < 3/2
      · simp [hlt] at hpg
      · simp [hlt] at hpg
        exact hpg.2.symm
    · intro heq
      unfold plan_for LUFS_TOLERANCE
      rw [hv]
      have : ¬ |lufs_value m - t| < 3/2 := by rw [heq]; exact lt_irrefl _
      simp [this]
  · intro cp hpk hcp
    have hv : is_lufs_valid m = false := by
      by_contra hv
      rw [Bool.not_eq_false] at hv
      simp [classify, hv] at hpk
    refine ⟨?_, ?_, ?_⟩
    · unfold plan_for PEAK_TOLERANCE
      rw [hv]
      simp only [Bool.false_eq_true, if_false, hcp]
      by_cases hlt : |cp - p| < 3/2 <;> simp [hlt]
    · intro r g hpg
      unfold plan_for PEAK_TOLERANCE at hpg
      rw [hv] at hpg
      simp only [Bool.false_eq_true, if_false, hcp] at hpg
      by_cases hlt : |cp - p| < 3/2
      · simp [hlt] at hpg
      · simp [hlt] at hpg
        exact hpg.2.symm
    · intro heq
      unfold plan_for PEAK_TOLERANCE
      rw [hv]
      have : ¬ |cp - p| < 3/2 := by rw [heq]; exact lt_irrefl _
      simp [hcp, this]

/-- Witness for C1: a file measured at -16.5 LUFS against a -18 target
sits exactly 1.5 dB away, so the boundary case yields Apply with the
exact gain -1.5 dB. -/
theorem planner_skip_law_witness :
    plan_for ⟨some (.finite (-33/2)), none⟩ (-18) (-3)
      = .applyGain .lufs (-3/2) := by
  have h := (planner_skip_law ⟨some (.finite (-33/2)), none⟩ (-18) (-3)).1
    (by decide) |>.2.2 (by norm_num [lufs_value])
  have : (-18 : ℚ) - lufs_value ⟨some (.finite (-33/2)), none⟩ = -3/2 := by
    norm_num [lufs_value]
  rw [this] at h
  exact h

/-- C2: the regime derived from a measurement is Lufs whenever the
integrated loudness converted to a finite float, regardless of the true
peak; otherwise Peak whenever the true peak is finite; otherwise
Unmeasurable.  `classify` is a total function, so the derivation is
deterministic and total. -/
theorem classifier_regime (m : Measurements) :
    ((∃ q, m.input_i = some (.finite q)) → classify m = .lufs)
    ∧ ((¬ ∃ q, m.input_i = some (.finite q)) →
        (∃ q, m.input_tp = some (.finite q)) → classify m = .peak)
    ∧ ((¬ ∃ q, m.input_i = some (.finite q)) →
        (¬ ∃ q, m.input_tp = some (.finite q)) →
        classify m = .unmeasurable) := by
  refine ⟨?_, ?_, ?_⟩
  · rintro ⟨q, hq⟩
    simp [classify, is_lufs_valid, hq, PyFloat.isFinite]
  · rintro hni ⟨q, hq⟩
    have hv : is_lufs_valid m = false := by
      unfold is_lufs_valid
      cases hi : m.input_i with
      | none => rfl
      | some v =>
        cases v with
        | finite q' => exact absurd ⟨q', hi⟩ hni
        | posInf => rfl
        | negInf => rfl
        | nan => rfl
    simp [classify, hv, get_peak_db, hq]
  · intro hni hnp
    have hv : is_lufs_valid m = false := by
      unfold is_lufs_valid
      cases hi : m.input_i with
      | none => rfl
      | some v =>
        cases v with
        | finite q' => exact absurd ⟨q', hi⟩ hni
        | posInf => rfl
        | negInf => rfl
        | nan => rfl
    have hp : get_peak_db m = none := by
      unfold get_peak_db
      cases hi : m.input_tp with
      | none => rfl
      | some v =>
        cases v with
        | finite q' => exact absurd ⟨q', hi⟩ hnp
        | posInf => rfl
        | negInf => rfl
        | nan => rfl
    simp [classify, hv, hp]

/-- Witness for C2: integrated loudness -30 with a non-finite peak
classifies as Lufs; a -inf loudness with finite peak classifies as Peak;
both non-finite classifies as Unmeasurable. -/
theorem classifier_regime_witness :
    classify ⟨some (.finite (-30)), some .nan⟩ = .lufs
    ∧ classify ⟨some .negInf, some (.finite (-3))⟩ = .peak
    ∧ classify ⟨some .negInf, some .nan⟩ = .unmeasurable := by
  refine ⟨?_, ?_, ?_⟩
  · exact (classifier_regime ⟨some (.finite (-30)), some .nan⟩).1 ⟨-30, rfl⟩
  · exact (classifier_regime ⟨some .negInf, some (.finite (-3))⟩).2.1
      (by rintro ⟨q, h⟩; cases h) ⟨-3, rfl⟩
  · exact (classifier_regime ⟨some .negInf, some .nan⟩).2.2
      (by rintro ⟨q, h⟩; cases h) (by rintro ⟨q, h⟩; cases h)

lemma plan_for_skip_of_lufs (q t p : ℚ) (tp : Option PyFloat)
    (h : |q - t| < LUFS_TOLERANCE) :
    plan_for ⟨some (.finite q), tp⟩ t p = .skip := by
  simp [plan_for, is_lufs_valid, PyFloat.isFinite, lufs_value, h]

lemma plan_for_apply_of_lufs (q t p : ℚ) (tp : Option PyFloat)
    (h : ¬ |q - t| < LUFS_TOLERANCE) :
    plan_for ⟨some (.finite q), tp⟩ t p = .applyGain .lufs (t - q) := by
  simp [plan_for, is_lufs_valid, PyFloat.isFinite, lufs_value, h]

lemma plan_for_skip_of_peak (i : Option PyFloat) (q t p : ℚ)
    (hi : is_lufs_valid ⟨i, some (.finite q)⟩ = false)
    (h : |q - p| < PEAK_TOLERANCE) :
    plan_for ⟨i, some (.finite q)⟩ t p = .skip := by
  simp [plan_for, hi, get_peak_db, h]

lemma plan_for_apply_of_peak (i : Option PyFloat) (q t p : ℚ)
    (hi : is_lufs_valid ⟨i, some (.finite q)⟩ = false)
    (h : ¬ |q - p| < PEAK_TOLERANCE) :
    plan_for ⟨i, some (.finite q)⟩ t p = .applyGain .peak (p - q) := by
  simp [plan_for, hi, get_peak_db, h]

theorem run_loop_fold (a : Args) (c : Counts) (envs : List FileEnv) :
    envs.foldl (fun c env => bump c (step a env).outcome) c
      = ⟨c.success + (envs.map (fun e => (step a e).outcome)).count .success,
         c.skip + (envs.map (fun e => (step a e).outcome)).count .skipped,
         c.fail + (envs.map (fun e => (step a e).outcome)).count .failed⟩ := by
  induction envs generalizing c with
  | nil => simp
  | cons e es ih =>
    rw [List.foldl_cons, ih]
    cases h : (step a e).outcome <;>
      simp [bump, List.count_cons, h] <;> omega

/-- C6: once the engine-availability check passes and the inputs resolve,
the run always completes: the loop covers every file, each per-file
failure is recorded in the failure counter and processing continues, and
post-apply verification results never change an outcome.  The only
run-level abort with resolvable inputs is engine unavailability. -/
theorem orchestrator_never_aborts (inp : Inputs) (a : Args)
    (envs : List FileEnv) (hres : resolve inp = some envs) :
    main_run true inp a = .completed (run_loop a envs)
    ∧ (run_loop a envs).fail
        = (envs.map (fun e => (step a e).outcome)).count .failed
    ∧ (run_loop a envs).success + (run_loop a envs).skip
        + (run_loop a envs).fail = envs.length
    ∧ (∀ env v, (step a { env with verif := v }).outcome
        = (step a env).outcome)
    ∧ main_run false inp a = .engineUnavailable := by
  have hloop := run_loop_fold a ⟨0, 0, 0⟩ envs
  refine ⟨by simp [main_run, hres], ?_, ?_, ?_, by simp [main_run]⟩
  · rw [run_loop, hloop]
    simp
  · rw [run_loop, hloop]
    simp only [Nat.zero_add]
    have := List.length_map envs (fun e => (step a e).outcome)
    rw [← this]
    generalize (envs.map (fun e => (step a e).outcome)) = os
    induction os with
    | nil => simp
    | cons o os ih =>
      cases o <;> simp [List.count_cons] <;> omega
  · intro env v
    simp [step]

/-- Witness for C6: a three-file run over explicit paths — one
measurement failure, one skip, one successful apply — completes with
counters (1, 1, 1). -/
theorem orchestrator_never_aborts_witness :
    main_run true
      (.explicitPaths
        [⟨none, true, none⟩,
         ⟨some ⟨some (.finite (-18)), none⟩, true, none⟩,
         ⟨some ⟨some (.finite (-30)), none⟩, true, none⟩])
      ⟨-18, -3, false, false⟩
      = .completed ⟨1, 1, 1⟩ := by
  have h := (orchestrator_never_aborts
    (.explicitPaths
      [⟨none, true, none⟩,
       ⟨some ⟨some (.finite (-18)), none⟩, true, none⟩,
       ⟨some ⟨some (.finite (-30)), none⟩, true, none⟩])
    ⟨-18, -3, false, false⟩
    [⟨none, true, none⟩,
     ⟨some ⟨some (.finite (-18)), none⟩, true, none⟩,
     ⟨some ⟨some (.finite (-30)), none⟩, true, none⟩] rfl).1
  rw [h]
  have p2 : plan_for ⟨some (.finite (-18)), none⟩ (-18) (-3) = .skip :=
    plan_for_skip_of_lufs (-18) (-18) (-3) none (by norm_num [LUFS_TOLERANCE])
  have p3 : plan_for ⟨some (.finite (-30)), none⟩ (-18) (-3)
      = .applyGain .lufs ((-18) - (-30)) :=
    plan_for_apply_of_lufs (-30) (-18) (-3) none (by norm_num [LUFS_TOLERANCE])
  simp [run_loop, step, p2, p3, bump]

/-- C9: a measurement in which neither the integrated loudness nor the
true peak converted to a finite value classifies as Unmeasurable; the
file's outcome is Failed with the applier never invoked, and the step
increments the failure counter by exactly one.  Moreover every Apply
plan carries the Lufs or Peak regime. -/
theorem unmeasurable_fails_without_apply :
    (∀ m : Measurements,
      (¬ ∃ q, m.input_i = some (.finite q)) →
      (¬ ∃ q, m.input_tp = some (.finite q)) →
      classify m = .unmeasurable
      ∧ (∀ a env, env.meas = some m → step a env = ⟨.failed, false⟩)
      ∧ (∀ a env c, env.meas = some m →
          bump c (step a env).outcome = { c with fail := c.fail + 1 }))
    ∧ (∀ m t p r g, plan_for m t p = .applyGain r g →
        r = .lufs ∨ r = .peak) := by
  constructor
  · intro m hni hnp
    have hv : is_lufs_valid m = false := by
      unfold is_lufs_valid
      cases hi : m.input_i with
      | none => rfl
      | some v =>
        cases v with
        | finite q' => exact absurd ⟨q', hi⟩ hni
        | posInf => rfl
        | negInf => rfl
        | nan => rfl
    have hp : get_peak_db m = none := by
      unfold get_peak_db
      cases hi : m.input_tp with
      | none => rfl
      | some v =>
        cases v with
        | finite q' => exact absurd ⟨q', hi⟩ hnp
        | posInf => rfl
        | negInf => rfl
        | nan => rfl
    have hplan : ∀ t p, plan_for m t p = .noPlan := by
      intro t p
      simp [plan_for, hv, hp]
    refine ⟨by simp [classify, hv, hp], ?_, ?_⟩
    · intro a env henv
      simp [step, henv, hplan]
    · intro a env c henv
      simp [step, henv, hplan, bump]
  · intro m t p r g hpg
    unfold plan_for at hpg
    by_cases hv : is_lufs_valid m = true
    · rw [hv] at hpg
      simp only [if_true] at hpg
      by_cases hlt : |lufs_value m - t| < LUFS_TOLERANCE
      · simp [hlt] at hpg
      · simp [hlt] at hpg
        exact Or.inl hpg.1.symm
    · rw [Bool.not_eq_true] at hv
      rw [hv] at hpg
      simp only [Bool.false_eq_true, if_false] at hpg
      cases hpk : get_peak_db m with
      | none => simp [hpk] at hpg
      | some cp =>
        rw [hpk] at hpg
        by_cases hlt : |cp - p| < PEAK_TOLERANCE
        · simp [hlt] at hpg
        · simp [hlt] at hpg
          exact Or.inr hpg.1.symm

/-- Witness for C9: a measurement with -inf loudness and nan peak is
unmeasurable, fails without the applier, and bumps only the failure
counter. -/
theorem unmeasurable_fails_without_apply_witness :
    classify ⟨some .negInf, some .nan⟩ = .unmeasurable
    ∧ step ⟨-18, -3, false, true⟩ ⟨some ⟨some .negInf, some .nan⟩, true, none⟩
        = ⟨.failed, false⟩
    ∧ bump ⟨4, 2, 0⟩
        (step ⟨-18, -3, false, true⟩
          ⟨some ⟨some .negInf, some .nan⟩, true, none⟩).outcome
        = ⟨4, 2, 1⟩ := by
  have h := unmeasurable_fails_without_apply.1 ⟨some .negInf, some .nan⟩
    (by rintro ⟨q, h⟩; cases h) (by rintro ⟨q, h⟩; cases h)
  exact ⟨h.1, h.2.1 ⟨-18, -3, false, true⟩ _ rfl, h.2.2 ⟨-18, -3, false, true⟩ _ ⟨4, 2, 0⟩ rfl⟩

/-- C10: every iteration of the per-file loop increments exactly one of
the three counters by exactly one, and consequently at the end of a run
`success + skip + fail` equals the number of files iterated. -/
theorem counters_partition (a : Args) (envs : List FileEnv) :
    ((run_loop a envs).success + (run_loop a envs).skip
      + (run_loop a envs).fail = envs.length)
    ∧ (∀ c env,
        bump c (step a env).outcome = { c with success := c.success + 1 }
        ∨ bump c (step a env).outcome = { c with skip := c.skip + 1 }
        ∨ bump c (step a env).outcome = { c with fail := c.fail + 1 }) := by
  constructor
  · rw [run_loop, run_loop_fold]
    simp only [Nat.zero_add]
    have := List.length_map envs (fun e => (step a e).outcome)
    rw [← this]
    generalize (envs.map (fun e => (step a e).outcome)) = os
    induction os with
    | nil => simp
    | cons o os ih =>
      cases o <;> simp [List.count_cons] <;> omega
  · intro c env
    cases h : (step a env).outcome <;> simp [bump, h]

lemma cleanupTmp_at_tmp (fs : FS) (tmp : FsPath) :
    cleanupTmp fs tmp tmp = none := by
  unfold cleanupTmp
  by_cases h : (fs tmp).isSome
  · simp [h, FS.erase]
  · simp only [h, if_false]
    exact Option.not_isSome_iff_eq_none.mp h

lemma apply_filter_err_tmp_gone (tempDir : String) (filepath : FsPath)
    (tmpName : String) (eng : EngineResult) (backup : Bool)
    (fault : Option Fault) (fs fs' : FS)
    (h : apply_filter tempDir filepath tmpName eng backup fault fs
      = .err fs') :
    fs' ⟨tempDir, tmpName⟩ = none := by
  simp only [apply_filter, moveStep] at h
  repeat' split at h
  all_goals simp_all
  all_goals (rw [← h]; exact cleanupTmp_at_tmp _ _)

lemma bakPath_ne (p : FsPath) : bakPath p ≠ p := by
  intro h
  have hn : p.name ++ ".bak" = p.name := congrArg FsPath.name h
  have hlen := congrArg String.length hn
  rw [String.length_append] at hlen
  have h4 : ".bak".length = 4 := rfl
  omega

/-- C3: if the engine invocation exits non-zero, `_apply_filter` returns
failure with the temp file deleted and the whole filesystem — in
particular the original file's bytes — exactly as before the call; and
whenever an unexpected error during the sequence propagates, the dangling
temp file has been removed first. -/
theorem applier_failure_atomicity (tempDir : String) (filepath : FsPath)
    (tmpName : String) (eng : EngineResult) (backup : Bool) (fs : FS)
    (hfresh : fs ⟨tempDir, tmpName⟩ = none) :
    (eng.rc ≠ 0 → ∃ fs' evs,
      apply_filter tempDir filepath tmpName eng backup none fs
        = .ok false fs' evs
      ∧ (∀ q, fs' q = fs q))
    ∧ (∀ fault fs',
        apply_filter tempDir filepath tmpName eng backup (some fault) fs
          = .err fs' → fs' ⟨tempDir, tmpName⟩ = none) := by
  constructor
  · intro hrc
    refine ⟨((fs.write ⟨tempDir, tmpName⟩ emptyData).write
        ⟨tempDir, tmpName⟩ eng.out).erase ⟨tempDir, tmpName⟩,
      [.mkstemp ⟨tempDir, tmpName⟩, .engineRun eng.rc,
        .unlinkTmp ⟨tempDir, tmpName⟩], ?_, ?_⟩
    · simp [apply_filter, hrc]
    · intro q
      by_cases hq : q = (⟨tempDir, tmpName⟩ : FsPath)
      · subst hq
        simp [FS.erase, hfresh]
      · simp [FS.erase, FS.write, hq]
  · intro fault fs' h
    exact apply_filter_err_tmp_gone tempDir filepath tmpName eng backup
      (some fault) fs fs' h

/-- Witness for C3: a concrete failing engine run (exit code 1) over a
one-file filesystem leaves every path, original included, unchanged. -/
theorem applier_failure_atomicity_witness :
    ∃ fs' evs,
      apply_filter "/tmp" ⟨"/repo/assets/audio", "click.wav"⟩ "tmpa1b2.wav"
        ⟨1, ⟨[40, 50], 6⟩⟩ true none
        (fun q => if q = ⟨"/repo/assets/audio", "click.wav"⟩
          then some ⟨[10, 20, 30], 5⟩ else none)
        = .ok false fs' evs
      ∧ (∀ q, fs' q = (fun q => if q = ⟨"/repo/assets/audio", "click.wav"⟩
          then some ⟨[10, 20, 30], 5⟩ else none) q) :=
  (applier_failure_atomicity "/tmp" ⟨"/repo/assets/audio", "click.wav"⟩
    "tmpa1b2.wav" ⟨1, ⟨[40, 50], 6⟩⟩ true
    (fun q => if q = ⟨"/repo/assets/audio", "click.wav"⟩
      then some ⟨[10, 20, 30], 5⟩ else none)
    (by decide)).1 (by decide)

/-- Counterexample to C4 as stated: in a concrete successful run over a
file in `/repo/assets/audio`, the temporary file is created in the system
default temporary directory `/tmp` — `tempfile.mkstemp(suffix=ext)` at
line 193 passes no `dir=` — so no temp file is ever created in the same
filesystem location as the original. -/
theorem applier_tmp_location_counterexample :
    (∀ p, Ev.mkstemp p ∈ applyTrace
        (apply_filter "/tmp" ⟨"/repo/assets/audio", "click.wav"⟩
          "tmpa1b2.wav" ⟨0, ⟨[40, 50], 6⟩⟩ false none
          (fun q => if q = ⟨"/repo/assets/audio", "click.wav"⟩
            then some ⟨[10, 20, 30], 5⟩ else none))
        → p.dir ≠ "/repo/assets/audio")
    ∧ Ev.mkstemp ⟨"/tmp", "tmpa1b2.wav"⟩ ∈ applyTrace
        (apply_filter "/tmp" ⟨"/repo/assets/audio", "click.wav"⟩
          "tmpa1b2.wav" ⟨0, ⟨[40, 50], 6⟩⟩ false none
          (fun q => if q = ⟨"/repo/assets/audio", "click.wav"⟩
            then some ⟨[10, 20, 30], 5⟩ else none)) := by
  have htr : applyTrace
      (apply_filter "/tmp" ⟨"/repo/assets/audio", "click.wav"⟩
        "tmpa1b2.wav" ⟨0, ⟨[40, 50], 6⟩⟩ false none
        (fun q => if q = ⟨"/repo/assets/audio", "click.wav"⟩
          then some ⟨[10, 20, 30], 5⟩ else none))
      = [.mkstemp ⟨"/tmp", "tmpa1b2.wav"⟩, .engineRun 0,
         .moveTmp ⟨"/tmp", "tmpa1b2.wav"⟩ ⟨"/repo/assets/audio", "click.wav"⟩] := by
    decide
  rw [htr]
  constructor
  · intro p hp
    simp only [List.mem_cons, List.not_mem_nil, or_false] at hp
    rcases hp with h | h | h <;> first
      | (injection h with h1; subst h1; decide)
      | cases h
  · simp

/-- C4, amended: the temporary file is created in the system default
temporary directory (not necessarily the same filesystem location as the
original — so the promotion by `shutil.move` is an atomic rename only
when that directory and the original share a filesystem); on success the
engine output is promoted over the original: afterwards the original
path holds the engine's output and the temp file is gone. -/
theorem applier_tmp_in_tempdir_and_promotes (tempDir : String)
    (filepath : FsPath) (tmpName : String) (eng : EngineResult)
    (backup : Bool) (fs : FS) (orig : FileData)
    (hfresh : fs ⟨tempDir, tmpName⟩ = none)
    (hex : fs filepath = some orig)
    (hrc : eng.rc = 0)
    (hnb : (⟨tempDir, tmpName⟩ : FsPath) ≠ bakPath filepath) :
    ∃ fs' evs,
      apply_filter tempDir filepath tmpName eng backup none fs
        = .ok true fs' evs
      ∧ fs' filepath = some eng.out
      ∧ fs' ⟨tempDir, tmpName⟩ = none
      ∧ (∀ p, Ev.mkstemp p ∈ evs → p.dir = tempDir) := by
  have hne : (⟨tempDir, tmpName⟩ : FsPath) ≠ filepath := by
    intro he
    rw [he, hex] at hfresh
    cases hfresh
  have hne' : filepath ≠ (⟨tempDir, tmpName⟩ : FsPath) := Ne.symm hne
  cases backup with
  | false =>
    have happ : apply_filter tempDir filepath tmpName eng false none fs
        = .ok true ((((fs.write ⟨tempDir, tmpName⟩ emptyData).write
            ⟨tempDir, tmpName⟩ eng.out).erase ⟨tempDir, tmpName⟩).write
            filepath eng.out)
          [.mkstemp ⟨tempDir, tmpName⟩, .engineRun eng.rc,
           .moveTmp ⟨tempDir, tmpName⟩ filepath] := by
      simp [apply_filter, moveStep, hrc, FS.write]
    refine ⟨_, _, happ, ?_, ?_, ?_⟩
    · simp [FS.write]
    · simp [FS.write, FS.erase, hne]
    · intro p hp
      simp at hp
      subst hp
      rfl
  | true =>
    have happ : apply_filter tempDir filepath tmpName eng true none fs
        = .ok true ((((((fs.write ⟨tempDir, tmpName⟩ emptyData).write
            ⟨tempDir, tmpName⟩ eng.out).write (bakPath filepath) orig).erase
            ⟨tempDir, tmpName⟩).write filepath eng.out))
          [.mkstemp ⟨tempDir, tmpName⟩, .engineRun eng.rc,
           .copyBak filepath (bakPath filepath),
           .moveTmp ⟨tempDir, tmpName⟩ filepath] := by
      simp [apply_filter, moveStep, hrc, FS.write, hex, hne', hnb]
    refine ⟨_, _, happ, ?_, ?_, ?_⟩
    · simp [FS.write]
    · simp [FS.write, FS.erase, hne]
    · intro p hp
      simp at hp
      subst hp
      rfl

/-- Witness for C4 (amended): a concrete successful run with backup off
promotes the engine output over the original and the `/tmp` temp file is
gone. -/
theorem applier_tmp_in_tempdir_and_promotes_witness :
    ∃ fs' evs,
      apply_filter "/tmp" ⟨"/repo/assets/audio", "click.wav"⟩ "tmpa1b2.wav"
        ⟨0, ⟨[40, 50], 6⟩⟩ false none
        (fun q => if q = ⟨"/repo/assets/audio", "click.wav"⟩
          then some ⟨[10, 20, 30], 5⟩ else none)
        = .ok true fs' evs
      ∧ fs' ⟨"/repo/assets/audio", "click.wav"⟩ = some ⟨[40, 50], 6⟩
      ∧ fs' ⟨"/tmp", "tmpa1b2.wav"⟩ = none
      ∧ (∀ p, Ev.mkstemp p ∈ evs → p.dir = "/tmp") :=
  applier_tmp_in_tempdir_and_promotes "/tmp"
    ⟨"/repo/assets/audio", "click.wav"⟩ "tmpa1b2.wav" ⟨0, ⟨[40, 50], 6⟩⟩
    false
    (fun q => if q = ⟨"/repo/assets/audio", "click.wav"⟩
      then some ⟨[10, 20, 30], 5⟩ else none)
    ⟨[10, 20, 30], 5⟩ (by decide) (by decide) (by decide) (by decide)

/-- C7: when backup is requested and the apply succeeds, the `.bak`
sibling afterwards holds exactly the original's pre-apply `FileData`
(bytes and metadata, as `shutil.copy2` preserves both), and the copy
event precedes the promotion event in the execution trace. -/
theorem applier_backup_fidelity (tempDir : String) (filepath : FsPath)
    (tmpName : String) (eng : EngineResult) (fs : FS) (orig : FileData)
    (hfresh : fs ⟨tempDir, tmpName⟩ = none)
    (hex : fs filepath = some orig)
    (hrc : eng.rc = 0)
    (hnb : (⟨tempDir, tmpName⟩ : FsPath) ≠ bakPath filepath) :
    ∃ fs' evs,
      apply_filter tempDir filepath tmpName eng true none fs
        = .ok true fs' evs
      ∧ fs' (bakPath filepath) = some orig
      ∧ ∃ l1 l2 l3,
          evs = l1 ++ [.copyBak filepath (bakPath filepath)] ++ l2
            ++ [.moveTmp ⟨tempDir, tmpName⟩ filepath] ++ l3 := by
  have hne : (⟨tempDir, tmpName⟩ : FsPath) ≠ filepath := by
    intro he
    rw [he, hex] at hfresh
    cases hfresh
  have hne' : filepath ≠ (⟨tempDir, tmpName⟩ : FsPath) := Ne.symm hne
  have happ : apply_filter tempDir filepath tmpName eng true none fs
      = .ok true ((((((fs.write ⟨tempDir, tmpName⟩ emptyData).write
          ⟨tempDir, tmpName⟩ eng.out).write (bakPath filepath) orig).erase
          ⟨tempDir, tmpName⟩).write filepath eng.out))
        [.mkstemp ⟨tempDir, tmpName⟩, .engineRun eng.rc,
         .copyBak filepath (bakPath filepath),
         .moveTmp ⟨tempDir, tmpName⟩ filepath] := by
    simp [apply_filter, moveStep, hrc, FS.write, hex, hne', hnb]
  refine ⟨_, _, happ, ?_, ?_⟩
  · simp [FS.write, FS.erase, bakPath_ne filepath, Ne.symm hnb]
  · exact ⟨[.mkstemp ⟨tempDir, tmpName⟩, .engineRun eng.rc], [], [], rfl⟩

/-- Witness for C7: a concrete successful backed-up run yields a `.bak`
file with the original's exact pre-apply data, copied before the move. -/
theorem applier_backup_fidelity_witness :
    ∃ fs' evs,
      apply_filter "/tmp" ⟨"/repo/assets/audio", "click.wav"⟩ "tmpa1b2.wav"
        ⟨0, ⟨[40, 50], 6⟩⟩ true none
        (fun q => if q = ⟨"/repo/assets/audio", "click.wav"⟩
          then some ⟨[10, 20, 30], 5⟩ else none)
        = .ok true fs' evs
      ∧ fs' (bakPath ⟨"/repo/assets/audio", "click.wav"⟩)
          = some ⟨[10, 20, 30], 5⟩
      ∧ ∃ l1 l2 l3,
          evs = l1 ++ [.copyBak ⟨"/repo/assets/audio", "click.wav"⟩
              (bakPath ⟨"/repo/assets/audio", "click.wav"⟩)] ++ l2
            ++ [.moveTmp ⟨"/tmp", "tmpa1b2.wav"⟩
              ⟨"/repo/assets/audio", "click.wav"⟩] ++ l3 :=
  applier_backup_fidelity "/tmp" ⟨"/repo/assets/audio", "click.wav"⟩
    "tmpa1b2.wav" ⟨0, ⟨[40, 50], 6⟩⟩
    (fun q => if q = ⟨"/repo/assets/audio", "click.wav"⟩
      then some ⟨[10, 20, 30], 5⟩ else none)
    ⟨[10, 20, 30], 5⟩ (by decide) (by decide) (by decide) (by decide)

/-- C8: in dry-run mode the loop completes with the filesystem returned
exactly as given — no file created, modified, or deleted — and with zero
applier invocations; the counters are exactly those of the pure
decision model, so Skip plans report as skipped and Apply plans are
reported (counted) without invoking the applier. -/
theorem dry_run_purity (t p : ℚ) (b : Bool) (tempDir : String)
    (envs : List FileEnvF) (c : Counts) (n : Nat) (fs : FS) :
    run_fs ⟨t, p, true, b⟩ tempDir envs c n fs
      = .done (envs.foldl
          (fun c e => bump c (step ⟨t, p, true, b⟩ (toEnv e)).outcome) c)
        n fs := by
  induction envs generalizing c n fs with
  | nil => simp [run_fs]
  | cons env rest ih =>
    have hstep : step_fs ⟨t, p, true, b⟩ tempDir fs env
        = .inl ((step ⟨t, p, true, b⟩ (toEnv env)).outcome, 0, fs) := by
      cases hm : env.meas with
      | none => simp [step_fs, step, toEnv, hm]
      | some m =>
        cases hp : plan_for m t p <;>
          simp [step_fs, step, toEnv, hm, hp]
    rw [run_fs, hstep]
    simp only [List.foldl_cons]
    exact ih _ _ _

lemma rfindChar_none_sound (s : List Char) (c : Char)
    (h : rfindChar s c = none) : ∀ j, s.get? j ≠ some c := by
  induction s with
  | nil => intro j; simp
  | cons a s ih =>
    intro j
    cases htail : rfindChar s c with
    | some k =>
      simp only [rfindChar, htail] at h
      exact Option.noConfusion h
    | none =>
      simp only [rfindChar, htail] at h
      by_cases hac : a = c
      · rw [if_pos hac] at h
        cases h
      · cases j with
        | zero =>
          simp only [List.get?_cons_zero]
          intro hh
          injection hh with hh1
          exact hac hh1
        | succ j =>
          simp only [List.get?_cons_succ]
          exact ih htail j

lemma rfindChar_sound (s : List Char) (c : Char) (i : Nat)
    (h : rfindChar s c = some i) : IsLastIdx s c i := by
  induction s generalizing i with
  | nil => cases h
  | cons a s ih =>
    cases htail : rfindChar s c with
    | some k =>
      simp only [rfindChar, htail] at h
      injection h with h1
      subst h1
      obtain ⟨hg, hlast⟩ := ih k htail
      constructor
      · simpa using hg
      · intro j hj
        cases j with
        | zero => omega
        | succ j' =>
          simp only [List.get?_cons_succ]
          exact hlast j' (by omega)
    | none =>
      simp only [rfindChar, htail] at h
      by_cases hac : a = c
      · rw [if_pos hac] at h
        injection h with h1
        subst h1
        constructor
        · rw [List.get?_cons_zero, hac]
        · intro j hj
          cases j with
          | zero => omega
          | succ j' =>
            simp only [List.get?_cons_succ]
            exact rfindChar_none_sound s c htail j'
      · rw [if_neg hac] at h
        cases h

lemma IsLastIdx_unique (s : List Char) (c : Char) (i j : Nat)
    (hi : IsLastIdx s c i) (hj : IsLastIdx s c j) : i = j := by
  rcases Nat.lt_trichotomy i j with h | h | h
  · exact absurd hj.1 (hi.2 j h)
  · exact h
  · exact absurd hi.1 (hj.2 i h)

/-- Counterexample to C5 as stated: on diagnostic text where the last
opening brace follows the last closing brace (here `(json block) space
open-brace`, as free-form text after the block produces), the code's
`rfind`-to-`rfind` span is empty and measurement fails, while the span
the claim describes — the last closing brace paired with the opening
brace that last precedes it — parses successfully. -/
theorem measurer_span_counterexample :
    measure_loudness 0 ("\x7b\"k\": 1\x7d \x7b".toList) = none
    ∧ measure_loudness_as_specified 0 ("\x7b\"k\": 1\x7d \x7b".toList)
        = some (.jobj [("k".toList, .jnum ['1'])])
    ∧ measure_loudness 0 ("\x7b\"k\": 1\x7d \x7b".toList)
        ≠ measure_loudness_as_specified 0 ("\x7b\"k\": 1\x7d \x7b".toList) := by
  have h1 : measure_loudness 0 ("\x7b\"k\": 1\x7d \x7b".toList) = none := rfl
  have h2 : measure_loudness_as_specified 0 ("\x7b\"k\": 1\x7d \x7b".toList)
      = some (.jobj [("k".toList, .jnum ['1'])]) := rfl
  refine ⟨h1, h2, ?_⟩
  rw [h1, h2]
  intro h
  cases h

/-- C5, amended: `measure_loudness` returns null iff the engine exits
non-zero, or the text lacks an opening or closing brace, or the span
from the last opening brace anywhere in the text (even one following the
last closing brace, in which case the span is empty) to the last closing
brace fails to parse as JSON; on success it returns exactly that span
parsed. -/
theorem measurer_null_iff (rc : Int) (stderr : List Char) :
    (measure_loudness rc stderr = none ↔
      rc ≠ 0
      ∨ (∀ i, ¬ IsLastIdx stderr '\x7b' i)
      ∨ (∀ i, ¬ IsLastIdx stderr '\x7d' i)
      ∨ (∃ js je, IsLastIdx stderr '\x7b' js ∧ IsLastIdx stderr '\x7d' je
          ∧ json_loads (pySlice stderr js (je + 1)) = none))
    ∧ (∀ v, measure_loudness rc stderr = some v →
        rc = 0 ∧ ∃ js je, IsLastIdx stderr '\x7b' js
          ∧ IsLastIdx stderr '\x7d' je
          ∧ json_loads (pySlice stderr js (je + 1)) = some v) := by
  by_cases hrc : rc = 0
  · subst hrc
    have hif : measure_loudness 0 stderr
        = (match extract_block stderr with
           | none => none
           | some block => json_loads block) := by
      simp [measure_loudness]
    cases hb : rfindChar stderr '\x7b' with
    | none =>
      have hnone : measure_loudness 0 stderr = none := by
        rw [hif]
        simp [extract_block, hb]
      have hright : ∀ i, ¬ IsLastIdx stderr '\x7b' i := fun i hi =>
        rfindChar_none_sound stderr _ hb i hi.1
      refine ⟨iff_of_true hnone (Or.inr (Or.inl hright)), ?_⟩
      intro v hv
      rw [hnone] at hv
      cases hv
    | some js =>
      cases hc : rfindChar stderr '\x7d' with
      | none =>
        have hnone : measure_loudness 0 stderr = none := by
          rw [hif]
          simp [extract_block, hb, hc]
        have hright : ∀ i, ¬ IsLastIdx stderr '\x7d' i := fun i hi =>
          rfindChar_none_sound stderr _ hc i hi.1
        refine ⟨iff_of_true hnone (Or.inr (Or.inr (Or.inl hright))), ?_⟩
        intro v hv
        rw [hnone] at hv
        cases hv
      | some je =>
        have hx : measure_loudness 0 stderr
            = json_loads (pySlice stderr js (je + 1)) := by
          rw [hif]
          simp [extract_block, hb, hc]
        have hjs := rfindChar_sound stderr _ js hb
        have hje := rfindChar_sound stderr _ je hc
        cases hp : json_loads (pySlice stderr js (je + 1)) with
        | none =>
          have hnone : measure_loudness 0 stderr = none := by rw [hx, hp]
          refine ⟨iff_of_true hnone
            (Or.inr (Or.inr (Or.inr ⟨js, je, hjs, hje, hp⟩))), ?_⟩
          intro v hv
          rw [hnone] at hv
          cases hv
        | some v0 =>
          have hsome : measure_loudness 0 stderr = some v0 := by rw [hx, hp]
          constructor
          · apply iff_of_false
            · rw [hsome]
              exact fun h => Option.noConfusion h
            · rintro (h1 | h2 | h3 | ⟨js', je', hjs', hje', hparse⟩)
              · exact h1 rfl
              · exact h2 js hjs
              · exact h3 je hje
              · rw [IsLastIdx_unique stderr _ js' js hjs' hjs,
                    IsLastIdx_unique stderr _ je' je hje' hje] at hparse
                rw [hp] at hparse
                cases hparse
          · intro v hv
            rw [hsome] at hv
            injection hv with hv1
            subst hv1
            exact ⟨rfl, js, je, hjs, hje, hp⟩
  · have hnone : measure_loudness rc stderr = none := by
      simp [measure_loudness, hrc]
    refine ⟨iff_of_true hnone (Or.inl hrc), ?_⟩
    intro v hv
    rw [hnone] at hv
    cases hv

/-- Witness for C5 (amended): on exit code 0 with diagnostic text that is
exactly an empty JSON object, measurement succeeds and the located span
is the object itself. -/
theorem measurer_null_iff_witness :
    (0 : Int) = 0 ∧ ∃ js je, IsLastIdx ("\x7b\x7d".toList) '\x7b' js
      ∧ IsLastIdx ("\x7b\x7d".toList) '\x7d' je
      ∧ json_loads (pySlice ("\x7b\x7d".toList) js (je + 1))
          = some (.jobj []) :=
  (measurer_null_iff 0 ("\x7b\x7d".toList)).2 (.jobj []) rfl

end NormalizeAudio
